import Mathlib

/-!
Shallow embedding of the isi2 backend (`src/backend/server.js`, second
revision: the one with `pin_color`, `user_id` and the debug clear-all
endpoint, which the spec describes).

The database is modelled as explicit state (lists of rows); SQL `NULL` is
`Option.none`; JavaScript string truthiness (`null`/`undefined`/`''` are
falsy) is modelled explicitly; `DECIMAL` coordinates are rationals.
Queries with an `ORDER BY` clause that does not totally order the rows
(`ORDER BY created_at DESC` with possible ties) are modelled relationally:
a predicate describes every result sequence the query may return.
-/

namespace Isi2

/-- JavaScript truthiness of a nullable string: `null`/`undefined` and the
empty string are falsy, every other string is truthy. -/
def truthyStr (s : Option String) : Bool :=
  match s with
  | none => false
  | some str => !str.isEmpty

/-- JavaScript truthiness of a nullable number (`0` is falsy). -/
def truthyNum (x : Option ℚ) : Bool :=
  match x with
  | none => false
  | some v => v != 0

/-- `x || null` for a nullable number, as in
`postLocation?.lat || null` (server.js line 399). -/
def jsNumOrNull (x : Option ℚ) : Option ℚ :=
  if truthyNum x then x else none

/-- `s || ''` for a nullable string, as in `comment || ''`
(server.js line 398). -/
def jsStrOrEmpty (s : Option String) : String :=
  match s with
  | none => ""
  | some str => str

/-- `Array.prototype.indexOf` on a list of strings: index of the first
occurrence, `-1` if absent (server.js line 366). -/
def jsIndexOf (x : String) : List String → Int
  | [] => -1
  | y :: ys =>
    if y = x then 0
    else
      let r := jsIndexOf x ys
      if r < 0 then -1 else r + 1

/-- `String.prototype.padStart(3, '0')` (server.js line 273): left-pad
with `'0'` up to length 3; a string of length ≥ 3 is returned unchanged. -/
def padStart3 (s : String) : String :=
  String.mk (List.replicate (3 - s.length) '0' ++ s.data)

/-- The regex match `host.match(/^isi(\d+)/)` (server.js line 271) on the
character list of the host: literal prefix `isi`, then the maximal
nonempty run of ASCII decimal digits; the remainder is ignored. Returns
the captured digit run. -/
def matchIsiDigits (cs : List Char) : Option (List Char) :=
  match cs with
  | 'i' :: 's' :: 'i' :: rest =>
    let digits := rest.takeWhile Char.isDigit
    if digits.isEmpty then none else some digits
  | _ => none

/-- `getStoneIdFromUrl` (server.js lines 269-277): `isi<digits>...` maps
to `stone-<digits padded to 3>`, anything else to `null`. -/
def getStoneIdFromUrl (host : String) : Option String :=
  match matchIsiDigits host.data with
  | some ds => some ("stone-" ++ padStart3 (String.mk ds))
  | none => none

/-- `getStoneIdFromUrl(host) || override` followed by the falsiness check
`if (!stoneId)` (server.js lines 329-333 for POST with `req.body.stoneId`,
lines 295-299 for GET with `req.query.stoneId`): the host-derived id wins;
otherwise a truthy override is used; otherwise the request is unresolved. -/
def resolveStoneId (host : String) (explicitOverride : Option String) : Option String :=
  match getStoneIdFromUrl host with
  | some sid => some sid
  | none =>
    match explicitOverride with
    | none => none
    | some s => if s.isEmpty then none else some s

/-- The pin-color palette (server.js line 343). -/
def pinColors : List String := ["#F17900", "#6466FF", "#00C27E", "#F2DD4E"]

/-- The projection of the latest-post row that the color allocator reads
(`SELECT nickname, pin_color`, server.js line 347). -/
structure LatestInfo where
  nickname : String
  pinColor : Option String
  deriving DecidableEq

/-- The pin-color assignment of the create-post handler
(server.js lines 355-380), given the observed latest row (or `none` when
the stone has no posts) and the new post's nickname. -/
def assignColor (latest : Option LatestInfo) (nickname : String) : String :=
  match latest with
  | some lp =>
    if lp.nickname = nickname ∧ truthyStr lp.pinColor then
      jsStrOrEmpty lp.pinColor
    else
      let currentColorIndex : Int :=
        if truthyStr lp.pinColor then jsIndexOf (jsStrOrEmpty lp.pinColor) pinColors else -1
      if currentColorIndex ≥ 0 then
        pinColors.getD ((currentColorIndex + 1).toNat % pinColors.length) ""
      else
        pinColors.getD 0 ""
  | none => pinColors.getD 0 ""

/-- A row of the `stones` table (server.js lines 217-224); `location_lat`
and `location_lng` are nullable decimals. -/
structure Stone where
  id : String
  locationLat : Option ℚ
  locationLng : Option ℚ
  deriving DecidableEq

/-- A row of the `posts` table (server.js lines 227-251). `created_at` is
an abstract timestamp (order is all the code uses). -/
structure Post where
  id : ℕ
  stoneId : String
  nickname : String
  comment : String
  postLocationLat : Option ℚ
  postLocationLng : Option ℚ
  pinColor : Option String
  createdAt : ℕ
  deriving DecidableEq

/-- The database state: the two tables (rows in insertion order) and the
next value of the `posts` BIGSERIAL sequence. -/
structure DB where
  stones : List Stone
  posts : List Post
  nextId : ℕ
  deriving DecidableEq

/-- A freshly initialized database (BIGSERIAL starts at 1). -/
def emptyDB : DB := { stones := [], posts := [], nextId := 1 }

/-- `INSERT INTO stones (id) VALUES ($1) ON CONFLICT (id) DO NOTHING`
(server.js lines 302-305 and 383-386): insert-if-absent with null
location fields; an existing row is left untouched. -/
def ensureStone (db : DB) (sid : String) : DB :=
  if db.stones.any (fun st => st.id = sid) then db
  else { db with stones := db.stones ++ [{ id := sid, locationLat := none, locationLng := none }] }

/-- The rows of `posts` with the given `stone_id`, in insertion order
(the `WHERE stone_id = $1` filter). -/
def postsOfStone (db : DB) (sid : String) : List Post :=
  db.posts.filter (fun p => p.stoneId = sid)

/-- `created_at` is non-increasing along the list: what
`ORDER BY created_at DESC` guarantees about a result sequence, and
nothing more (no tie-breaking key is given). -/
def nonIncreasingByCreatedAt : List Post → Bool
  | [] => true
  | [_] => true
  | a :: b :: rest => decide (b.createdAt ≤ a.createdAt) && nonIncreasingByCreatedAt (b :: rest)

/-- The result sequences the GET query
`SELECT ... WHERE stone_id = $1 ORDER BY created_at DESC`
(server.js lines 308-316) may return: any permutation of the stone's
posts in non-increasing `created_at` order. -/
def isListResult (db : DB) (sid : String) (out : List Post) : Prop :=
  out.Perm (postsOfStone db sid) ∧ nonIncreasingByCreatedAt out = true

/-- The rows the single-row query
`SELECT ... WHERE stone_id = $1 ORDER BY created_at DESC LIMIT 1`
(server.js lines 346-353) may return: `none` exactly when the stone has
no posts, otherwise some post of the stone with maximal `created_at`. -/
def isLatestRow (db : DB) (sid : String) (r : Option Post) : Prop :=
  match r with
  | none => postsOfStone db sid = []
  | some p => p ∈ postsOfStone db sid ∧ ∀ q ∈ postsOfStone db sid, q.createdAt ≤ p.createdAt

/-- The latest query projects the row to `(nickname, pin_color)`
(server.js line 347). -/
def isLatestObs (db : DB) (sid : String) (obs : Option LatestInfo) : Prop :=
  ∃ r, isLatestRow db sid r ∧ obs = r.map (fun p => ⟨p.nickname, p.pinColor⟩)

/-- The body of a POST `/api/posts` request together with the request
host (server.js lines 328-335). A client may send a `pinColor` field;
the handler destructures only `nickname`, `comment` and `postLocation`. -/
structure PostRequest where
  host : String
  stoneId : Option String
  nickname : Option String
  comment : Option String
  postLat : Option ℚ
  postLng : Option ℚ
  pinColor : Option String
  deriving DecidableEq

/-- The observable outcome of a request handler: HTTP 400 with an error
message, or success carrying the created post. -/
inductive PostResponse where
  | badRequest (msg : String)
  | ok (post : Post)
  deriving DecidableEq

/-- The POST `/api/posts` handler (server.js lines 326-410) as a state
transition. `obs` is the outcome of the latest-post query (constrained by
`isLatestObs` on the pre-state where the handler is composed into the
system) and `now` the timestamp the store assigns. Steps, in source
order: resolve the stone id (400 if unresolved), validate the nickname
(400 if falsy), compute the assigned color, insert-if-absent the stone,
insert the post. -/
def createPost (db : DB) (req : PostRequest) (obs : Option LatestInfo) (now : ℕ) :
    PostResponse × DB :=
  match resolveStoneId req.host req.stoneId with
  | none => (.badRequest "石IDが取得できませんでした", db)
  | some sid =>
    if truthyStr req.nickname then
      let nickname := jsStrOrEmpty req.nickname
      let assignedColor := assignColor obs nickname
      let db1 := ensureStone db sid
      let newPost : Post :=
        { id := db1.nextId
          stoneId := sid
          nickname := nickname
          comment := jsStrOrEmpty req.comment
          postLocationLat := jsNumOrNull req.postLat
          postLocationLng := jsNumOrNull req.postLng
          pinColor := some assignedColor
          createdAt := now }
      (.ok newPost, { db1 with posts := db1.posts ++ [newPost], nextId := db1.nextId + 1 })
    else
      (.badRequest "ニックネームは必須です", db)

/-- The state effect of the GET `/api/posts` handler (server.js lines
292-323): if a stone id resolves, insert-if-absent the stone; otherwise
(400) the state is untouched. The read itself never touches `posts`. -/
def getPostsState (db : DB) (host : String) (q : Option String) : DB :=
  match resolveStoneId host q with
  | none => db
  | some sid => ensureStone db sid

/-- `DELETE FROM posts` (server.js line 439): removes every post row,
returning the count removed (`rowCount`). -/
def deleteAllPosts (db : DB) : ℕ × DB :=
  (db.posts.length, { db with posts := [] })

/-- `DELETE FROM stones` (server.js line 442): removes every stone row,
returning the count removed. -/
def deleteAllStones (db : DB) : ℕ × DB :=
  (db.stones.length, { db with stones := [] })

/-- The DELETE `/api/debug/clear-all` handler (server.js lines 436-454):
delete all posts first, then all stones, and report both counts. -/
def clearAll (db : DB) : (ℕ × ℕ) × DB :=
  let postsResult := deleteAllPosts db
  let stonesResult := deleteAllStones postsResult.2
  ((postsResult.1, stonesResult.1), stonesResult.2)

/-- The latest-post observation a POST request may see: if its stone id
resolves, an outcome the latest query allows on the pre-state (the query
runs before the stone is auto-created, server.js line 346 vs 383). -/
def obsValid (db : DB) (req : PostRequest) (obs : Option LatestInfo) : Prop :=
  ∀ sid, resolveStoneId req.host req.stoneId = some sid → isLatestObs db sid obs

/-- One API interaction, as the induced state transition: a GET on
`/api/posts`, a POST on `/api/posts` (with any latest-query outcome the
pre-state allows and any timestamp), or the clear-all maintenance call.
The read-only endpoints (`/`, `/api/debug/posts`, the config endpoint)
do not change state. -/
inductive Step : DB → DB → Prop where
  | get (db : DB) (host : String) (q : Option String) :
      Step db (getPostsState db host q)
  | post (db : DB) (req : PostRequest) (obs : Option LatestInfo) (now : ℕ)
      (hobs : obsValid db req obs) :
      Step db (createPost db req obs now).2
  | clear (db : DB) : Step db (clearAll db).2

/-- Database states reachable through the API from a fresh database. -/
inductive Reachable : DB → Prop where
  | init : Reachable emptyDB
  | step {db db' : DB} : Reachable db → Step db db' → Reachable db'

/-- Modelled from the spec: the client-supplied pin-color validation of
§4.2's client-supplied policy ("a caller-supplied color string is
accepted only if it matches the pattern `#` followed by exactly 6
hexadecimal digits, case-insensitive"). No such check exists anywhere in
`src/backend/server.js`; this definition exists only to express what the
claim asserts about supplied colors. -/
def isValidPinColorSpec (s : String) : Bool :=
  match s.data with
  | '#' :: rest =>
    decide (rest.length = 6) &&
      rest.all (fun ch => ch.isDigit || ('a' ≤ ch && ch ≤ 'f') || ('A' ≤ ch && ch ≤ 'F'))
  | _ => false

/-- All creation timestamps in the list are pairwise distinct (the
condition under which `ORDER BY created_at DESC` determines the row
order completely). -/
def distinctTimes (l : List Post) : Prop :=
  l.Pairwise (fun a b => a.createdAt ≠ b.createdAt)

/-! Concrete sample data used by witnesses and counterexamples. -/

def stoneC : Stone := { id := "stone-001", locationLat := none, locationLng := none }

def postC : Post :=
  { id := 1, stoneId := "stone-001", nickname := "alice", comment := "hi",
    postLocationLat := none, postLocationLng := none, pinColor := some "#F17900",
    createdAt := 1 }

def dbC : DB := { stones := [stoneC], posts := [postC], nextId := 2 }

/-- A create-post request carrying a well-formed `pinColor` and a zero
latitude. -/
def reqB : PostRequest :=
  { host := "isi1.example.com", stoneId := none, nickname := some "bob",
    comment := some "yo", postLat := some 0, postLng := some 36,
    pinColor := some "#ABCDEF" }

def postB : Post :=
  { id := 2, stoneId := "stone-001", nickname := "bob", comment := "yo",
    postLocationLat := none, postLocationLng := some 36, pinColor := some "#6466FF",
    createdAt := 7 }

def dbB : DB := { stones := [stoneC], posts := [postC, postB], nextId := 3 }

/-- The post `reqB` creates in an empty database. -/
def postE : Post :=
  { id := 1, stoneId := "stone-001", nickname := "bob", comment := "yo",
    postLocationLat := none, postLocationLng := some 36, pinColor := some "#F17900",
    createdAt := 7 }

/-- Two posts of the same stone sharing one creation timestamp. -/
def postT1 : Post :=
  { id := 1, stoneId := "stone-001", nickname := "a", comment := "",
    postLocationLat := none, postLocationLng := none, pinColor := some "#F17900",
    createdAt := 5 }

def postT2 : Post :=
  { id := 2, stoneId := "stone-001", nickname := "b", comment := "",
    postLocationLat := none, postLocationLng := none, pinColor := some "#6466FF",
    createdAt := 5 }

def dbT : DB := { stones := [stoneC], posts := [postT1, postT2], nextId := 3 }

/-- A create-post request whose nickname is the empty string. -/
def reqEmptyNick : PostRequest :=
  { host := "isi1.example.com", stoneId := none, nickname := some "",
    comment := some "yo", postLat := none, postLng := none, pinColor := none }

/-- The request whose successful processing on a fresh database produces
exactly `dbC`. -/
def reqAlice : PostRequest :=
  { host := "isi1.example.com", stoneId := none, nickname := some "alice",
    comment := some "hi", postLat := none, postLng := none, pinColor := none }

/-! ### Helper lemmas -/

lemma takeWhile_digits_append (digits rest : List Char)
    (hall : ∀ ch ∈ digits, ch.isDigit = true)
    (hrest : ∀ ch, rest.head? = some ch → ch.isDigit = false) :
    (digits ++ rest).takeWhile Char.isDigit = digits := by
  induction digits with
  | nil =>
    cases rest with
    | nil => rfl
    | cons r rs => simp [List.takeWhile_cons, hrest r rfl]
  | cons d ds ih =>
    simp only [List.cons_append, List.takeWhile_cons, hall d (List.mem_cons_self d ds),
      if_true, List.cons.injEq, true_and]
    exact ih (fun ch hch => hall ch (List.mem_cons_of_mem d hch))

lemma string_mk_data (s : String) : String.mk s.data = s := rfl

lemma assignColor_some (lp : LatestInfo) (nickN : String) :
    assignColor (some lp) nickN =
      if lp.nickname = nickN ∧ truthyStr lp.pinColor then jsStrOrEmpty lp.pinColor
      else
        if (if truthyStr lp.pinColor then jsIndexOf (jsStrOrEmpty lp.pinColor) pinColors
            else -1) ≥ 0 then
          pinColors.getD
            (((if truthyStr lp.pinColor then jsIndexOf (jsStrOrEmpty lp.pinColor) pinColors
                else -1) + 1).toNat % pinColors.length) ""
        else pinColors.getD 0 "" := rfl

/-! ### Theorems about the claims -/

/-- C2: host-to-stone resolution. A host whose characters are `isi`
followed by a nonempty digit run and then a non-digit remainder resolves
to `stone-` plus the digit run zero-padded to 3; padding is a no-op on
runs of length ≥ 3; when the host does not resolve, a non-empty explicit
override is used and otherwise the request is unresolved (`none`). The
embedding is a total function, so resolution never throws. -/
theorem getStoneId_resolution (host : String) (digits rest : List Char) (ov : Option String) :
    (digits ≠ [] → (∀ ch ∈ digits, ch.isDigit = true) →
      (∀ ch, rest.head? = some ch → ch.isDigit = false) →
      host.data = 'i' :: 's' :: 'i' :: (digits ++ rest) →
      getStoneIdFromUrl host = some ("stone-" ++ padStart3 (String.mk digits))) ∧
    (3 ≤ digits.length → padStart3 (String.mk digits) = String.mk digits) ∧
    (getStoneIdFromUrl host = none → ∀ s, ov = some s → ¬ s.isEmpty = true →
      resolveStoneId host ov = some s) ∧
    (getStoneIdFromUrl host = none → (ov = none ∨ ov = some "") →
      resolveStoneId host ov = none) := by
  refine ⟨?_, ?_, ?_, ?_⟩
  · intro hne hall hrest hdata
    unfold getStoneIdFromUrl
    rw [hdata]
    unfold matchIsiDigits
    simp only [takeWhile_digits_append digits rest hall hrest]
    simp [List.isEmpty_iff, hne]
  · intro hlen
    unfold padStart3
    have h3 : 3 - (String.mk digits).length = 0 := Nat.sub_eq_zero_of_le hlen
    rw [h3]
    rfl
  · intro hnone s hs hsne
    unfold resolveStoneId
    rw [hnone, hs]
    simp [hsne]
  · intro hnone hov
    unfold resolveStoneId
    rw [hnone]
    rcases hov with h | h
    · rw [h]
    · rw [h]
      simp [String.isEmpty]

/-- C2 witness: concrete instances — `isi1234.example.com` resolves to
`stone-1234` (padding a no-op on 4 digits), and a non-matching host falls
back to the override or is unresolved. -/
theorem getStoneId_resolution_witness :
    getStoneIdFromUrl "isi1234.example.com" =
      some ("stone-" ++ padStart3 (String.mk ['1', '2', '3', '4'])) ∧
    padStart3 (String.mk ['1', '2', '3', '4']) = String.mk ['1', '2', '3', '4'] ∧
    resolveStoneId "nope.example.com" (some "stone-042") = some "stone-042" ∧
    resolveStoneId "nope.example.com" none = none := by
  have h := getStoneId_resolution "isi1234.example.com" ['1', '2', '3', '4']
    (".example.com".data) none
  have h' := getStoneId_resolution "nope.example.com" [] [] (some "stone-042")
  have h'' := getStoneId_resolution "nope.example.com" [] [] none
  exact ⟨h.1 (by decide) (by decide) (by decide) (by decide),
    h.2.1 (by decide),
    h'.2.2.1 (by decide) "stone-042" rfl (by decide),
    h''.2.2.2 (by decide) (Or.inl rfl)⟩

/-- C1 counterexample: the most recent prior post below has the same
nickname `"x"` as the new post and a non-null color (`some ""`), yet the
assigned color is `#F17900`, not that color — JavaScript treats the empty
string as falsy, so the reuse branch is skipped. -/
theorem assignColor_reuse_nonnull_cex :
    (some "" : Option String) ≠ none ∧
    assignColor (some { nickname := "x", pinColor := some "" }) "x" = "#F17900" ∧
    ("#F17900" : String) ≠ "" := by
  exact ⟨by decide, by decide, by decide⟩

/-- C1 (amended): rotation policy of the create-post handler. No prior
post → `palette[0]`; a null or empty latest color → `palette[0]`; same
nickname with a non-null, non-empty latest color → that color is reused;
different nickname with the latest color at palette index `i` → palette
index `(i+1) % 4` (so the last entry wraps to the first); different
nickname with a non-empty color outside the palette → `palette[0]`. -/
theorem assignColor_rotation_policy (nickL nickN c : String) (lc : Option String) :
    (assignColor none nickN = pinColors.getD 0 "") ∧
    ((lc = none ∨ lc = some "") →
      assignColor (some { nickname := nickL, pinColor := lc }) nickN = pinColors.getD 0 "") ∧
    (c ≠ "" → assignColor (some { nickname := nickN, pinColor := some c }) nickN = c) ∧
    (∀ i : ℕ, i < 4 → c = pinColors.getD i "" → nickL ≠ nickN →
      assignColor (some { nickname := nickL, pinColor := some c }) nickN =
        pinColors.getD ((i + 1) % 4) "") ∧
    ((∀ i : ℕ, i < 4 → c ≠ pinColors.getD i "") → nickL ≠ nickN → c ≠ "" →
      assignColor (some { nickname := nickL, pinColor := some c }) nickN =
        pinColors.getD 0 "") := by
  have htruthy : ∀ s : String, s ≠ "" → truthyStr (some s) = true := by
    intro s hs
    have h1 : s.isEmpty = false := by
      rw [Bool.eq_false_iff]
      exact fun h => hs ((String.isEmpty_iff s).mp h)
    simp [truthyStr, h1]
  refine ⟨rfl, ?_, ?_, ?_, ?_⟩
  · rintro (h | h) <;> subst h <;> rw [assignColor_some] <;> dsimp only <;> split
    · rename_i hx
      exact absurd hx.2 (by decide)
    · decide
    · rename_i hx
      exact absurd hx.2 (by decide)
    · decide
  · intro hc
    rw [assignColor_some]
    dsimp only
    split
    · rfl
    · rename_i hx
      exact absurd ⟨rfl, htruthy c hc⟩ hx
  · intro i hi hc hne
    rw [assignColor_some]
    dsimp only
    split
    · rename_i hx
      exact absurd hx.1 hne
    · interval_cases i <;> (subst hc; decide)
  · intro hnotin hne hcne
    have e0 : ¬("#F17900" = c) := fun h => hnotin 0 (by norm_num) h.symm
    have e1 : ¬("#6466FF" = c) := fun h => hnotin 1 (by norm_num) h.symm
    have e2 : ¬("#00C27E" = c) := fun h => hnotin 2 (by norm_num) h.symm
    have e3 : ¬("#F2DD4E" = c) := fun h => hnotin 3 (by norm_num) h.symm
    have hidx : jsIndexOf c pinColors = -1 := by
      simp only [pinColors, jsIndexOf, if_neg e0, if_neg e1, if_neg e2, if_neg e3]
      norm_num
    rw [assignColor_some]
    dsimp only
    split
    · rename_i hx
      exact absurd hx.1 hne
    · rw [htruthy c hcne]
      simp only [if_true]
      dsimp only [jsStrOrEmpty]
      rw [hidx]
      decide

/-- C1 witness: concrete instances of every branch of the amended
rotation policy — no prior post, null prior color, reuse on same
nickname, cyclic advance with wrap from the last palette entry, and a
non-palette prior color. -/
theorem assignColor_rotation_policy_witness :
    assignColor none "y" = pinColors.getD 0 "" ∧
    assignColor (some { nickname := "x", pinColor := none }) "y" = pinColors.getD 0 "" ∧
    assignColor (some { nickname := "x", pinColor := some "#6466FF" }) "x" = "#6466FF" ∧
    assignColor (some { nickname := "x", pinColor := some "#F2DD4E" }) "y" =
      pinColors.getD ((3 + 1) % 4) "" ∧
    assignColor (some { nickname := "x", pinColor := some "#123456" }) "y" =
      pinColors.getD 0 "" := by
  refine ⟨(assignColor_rotation_policy "x" "y" "" none).1,
    (assignColor_rotation_policy "x" "y" "" none).2.1 (Or.inl rfl),
    (assignColor_rotation_policy "y" "x" "#6466FF" none).2.2.1 (by decide),
    (assignColor_rotation_policy "x" "y" "#F2DD4E" none).2.2.2.1 3 (by norm_num)
      (by decide) (by decide),
    (assignColor_rotation_policy "x" "y" "#123456" none).2.2.2.2 (by decide) (by decide)
      (by decide)⟩

/-- Inversion of a successful create-post: the stone id resolved, the
nickname was truthy, and the response carries exactly the inserted row
(serial id, truthiness-coerced coordinates and comment, the color
computed by `assignColor`, the store-assigned timestamp). -/
lemma createPost_ok_inv (db : DB) (req : PostRequest) (obs : Option LatestInfo) (now : ℕ)
    (p : Post) (db' : DB) (h : createPost db req obs now = (PostResponse.ok p, db')) :
    ∃ sid, resolveStoneId req.host req.stoneId = some sid ∧
      truthyStr req.nickname = true ∧
      p = { id := (ensureStone db sid).nextId, stoneId := sid,
            nickname := jsStrOrEmpty req.nickname,
            comment := jsStrOrEmpty req.comment,
            postLocationLat := jsNumOrNull req.postLat,
            postLocationLng := jsNumOrNull req.postLng,
            pinColor := some (assignColor obs (jsStrOrEmpty req.nickname)),
            createdAt := now } ∧
      db' = { stones := (ensureStone db sid).stones,
              posts := (ensureStone db sid).posts ++ [p],
              nextId := (ensureStone db sid).nextId + 1 } := by
  unfold createPost at h
  split at h
  · exact absurd h (by simp)
  · rename_i sid hres
    split at h
    · rename_i ht
      dsimp only at h
      rw [Prod.mk.injEq, PostResponse.ok.injEq] at h
      obtain ⟨h1, h2⟩ := h
      refine ⟨sid, hres, ht, h1.symm, ?_⟩
      rw [← h2, h1]
    · exact absurd h (by simp)

/-- C6: a POST with a missing or empty nickname leaves the database
completely unchanged (no post row inserted, no stone created) and the
response is an HTTP 400 error. -/
theorem createPost_empty_nickname_rejected (db : DB) (req : PostRequest)
    (obs : Option LatestInfo) (now : ℕ)
    (h : req.nickname = none ∨ req.nickname = some "") :
    (createPost db req obs now).2 = db ∧
    ∃ msg, (createPost db req obs now).1 = PostResponse.badRequest msg := by
  have ht : truthyStr req.nickname = false := by
    rcases h with h | h <;> rw [h] <;> rfl
  unfold createPost
  split
  · exact ⟨rfl, _, rfl⟩
  · simp only [ht]
    exact ⟨rfl, _, rfl⟩

/-- C6 witness: an empty-string nickname is rejected with 400 and the
state is untouched. -/
theorem createPost_empty_nickname_rejected_witness :
    (createPost emptyDB reqEmptyNick none 0).2 = emptyDB ∧
    ∃ msg, (createPost emptyDB reqEmptyNick none 0).1 = PostResponse.badRequest msg :=
  createPost_empty_nickname_rejected emptyDB reqEmptyNick none 0 (Or.inr rfl)

lemma getPostsState_resolved (db : DB) (host : String) (q : Option String) (sid : String)
    (h : resolveStoneId host q = some sid) : getPostsState db host q = ensureStone db sid := by
  unfold getPostsState
  rw [h]

lemma ensureStone_posts (db : DB) (sid : String) : (ensureStone db sid).posts = db.posts := by
  unfold ensureStone
  split <;> rfl

lemma ensureStone_nextId (db : DB) (sid : String) : (ensureStone db sid).nextId = db.nextId := by
  unfold ensureStone
  split <;> rfl

lemma ensureStone_present (db : DB) (sid : String)
    (ha : db.stones.any (fun st => st.id = sid) = true) : ensureStone db sid = db := by
  unfold ensureStone
  rw [if_pos ha]

lemma ensureStone_absent (db : DB) (sid : String)
    (ha : db.stones.any (fun st => st.id = sid) = false) :
    (ensureStone db sid).stones =
      db.stones ++ [{ id := sid, locationLat := none, locationLng := none }] := by
  unfold ensureStone
  rw [if_neg (by rw [ha]; simp)]

lemma ensureStone_idem (db : DB) (sid : String) :
    ensureStone (ensureStone db sid) sid = ensureStone db sid := by
  by_cases hany : db.stones.any (fun st => st.id = sid) = true
  · rw [ensureStone_present db sid hany, ensureStone_present db sid hany]
  · have hfalse : db.stones.any (fun st => st.id = sid) = false :=
      Bool.eq_false_iff.mpr hany
    have h2 : (ensureStone db sid).stones.any (fun st => st.id = sid) = true := by
      rw [ensureStone_absent db sid hfalse]
      simp [List.any_append]
    exact ensureStone_present (ensureStone db sid) sid h2

/-- C7: the GET read path auto-creates the stone and nothing else: posts
and the id sequence are untouched; an existing stone row (with its
location fields) is left exactly as it was; an absent stone is appended
with null location fields; the insert-if-absent is idempotent, and a
stone absent before the read occurs exactly once after it. -/
theorem getPosts_autocreate_frame (db : DB) (host : String) (q : Option String) (sid : String)
    (h : resolveStoneId host q = some sid) :
    (getPostsState db host q).posts = db.posts ∧
    (getPostsState db host q).nextId = db.nextId ∧
    (db.stones.any (fun st => st.id = sid) = true → getPostsState db host q = db) ∧
    (db.stones.any (fun st => st.id = sid) = false →
      (getPostsState db host q).stones =
        db.stones ++ [{ id := sid, locationLat := none, locationLng := none }]) ∧
    getPostsState (getPostsState db host q) host q = getPostsState db host q ∧
    (db.stones.countP (fun st => st.id = sid) = 0 →
      (getPostsState db host q).stones.countP (fun st => st.id = sid) = 1) := by
  rw [getPostsState_resolved db host q sid h,
    getPostsState_resolved (ensureStone db sid) host q sid h]
  refine ⟨ensureStone_posts db sid, ensureStone_nextId db sid, ?_, ?_,
    ensureStone_idem db sid, ?_⟩
  · exact ensureStone_present db sid
  · exact ensureStone_absent db sid
  · intro h0
    have hall : ∀ st ∈ db.stones, ¬(st.id = sid) := by
      intro st hst
      have := List.countP_eq_zero.mp h0 st hst
      simpa using this
    have hfalse : db.stones.any (fun st => st.id = sid) = false := by
      rw [List.any_eq_false]
      intro st hst
      simpa using hall st hst
    rw [ensureStone_absent db sid hfalse, List.countP_append, h0]
    simp

/-- C7 witness: reading `stone-001` on a fresh database creates exactly
one stone row with null location fields and touches nothing else. -/
theorem getPosts_autocreate_frame_witness :
    (getPostsState emptyDB "isi1.example.com" none).posts = emptyDB.posts ∧
    (getPostsState emptyDB "isi1.example.com" none).stones =
      emptyDB.stones ++ [{ id := "stone-001", locationLat := none, locationLng := none }] ∧
    getPostsState (getPostsState emptyDB "isi1.example.com" none) "isi1.example.com" none =
      getPostsState emptyDB "isi1.example.com" none ∧
    (getPostsState emptyDB "isi1.example.com" none).stones.countP
      (fun st => st.id = "stone-001") = 1 := by
  have h := getPosts_autocreate_frame emptyDB "isi1.example.com" none "stone-001" (by decide)
  exact ⟨h.1, h.2.2.2.1 (by decide), h.2.2.2.2.1, h.2.2.2.2.2 (by decide)⟩

/-- C8: clear-all deletes every post row first (so that no post row
remains when the stones are deleted, respecting the foreign-key
dependency), then every stone row, reports both counts, and the post
listing of any stone re-created afterwards is the empty sequence. -/
theorem clearAll_contract (db : DB) :
    clearAll db = ((db.posts.length, db.stones.length),
      { stones := [], posts := [], nextId := db.nextId }) ∧
    (deleteAllPosts db).2.posts = [] ∧
    clearAll db = (((deleteAllPosts db).1, (deleteAllStones (deleteAllPosts db).2).1),
      (deleteAllStones (deleteAllPosts db).2).2) ∧
    (∀ sid out, isListResult (ensureStone (clearAll db).2 sid) sid out → out = []) := by
  refine ⟨rfl, rfl, rfl, ?_⟩
  intro sid out hout
  have hbase : postsOfStone (ensureStone (clearAll db).2 sid) sid = [] := rfl
  obtain ⟨hperm, -⟩ := hout
  rw [hbase] at hperm
  exact hperm.eq_nil

/-- C8 witness: clearing a database with one post and one stone reports
the counts (1, 1), empties both tables, and the re-created stone's
listing is empty. -/
theorem clearAll_contract_witness :
    clearAll dbC = ((1, 1), { stones := [], posts := [], nextId := 2 }) ∧
    ([] : List Post) = [] :=
  ⟨(clearAll_contract dbC).1,
    (clearAll_contract dbC).2.2.2 "stone-001" [] ⟨by decide, rfl⟩⟩

/-- C10: zero-coordinate coercion — `postLocation?.lat || null` maps the
number 0 (falsy in JavaScript) to SQL NULL, while any non-zero supplied
coordinate is stored exactly as given. -/
theorem createPost_zero_coercion (db : DB) (req : PostRequest) (obs : Option LatestInfo)
    (now : ℕ) (p : Post) (db' : DB)
    (h : createPost db req obs now = (PostResponse.ok p, db')) :
    (req.postLat = some 0 → p.postLocationLat = none) ∧
    (req.postLng = some 0 → p.postLocationLng = none) ∧
    (∀ v : ℚ, v ≠ 0 → req.postLat = some v → p.postLocationLat = some v) ∧
    (∀ v : ℚ, v ≠ 0 → req.postLng = some v → p.postLocationLng = some v) := by
  obtain ⟨sid, -, -, hp, -⟩ := createPost_ok_inv db req obs now p db' h
  subst hp
  refine ⟨?_, ?_, ?_, ?_⟩ <;> dsimp only
  · intro hz
    rw [hz]
    decide
  · intro hz
    rw [hz]
    decide
  · intro v hv hvp
    rw [hvp]
    simp [jsNumOrNull, truthyNum, bne_iff_ne, hv]
  · intro v hv hvp
    rw [hvp]
    simp [jsNumOrNull, truthyNum, bne_iff_ne, hv]

/-- C10 witness: a request with latitude 0 and longitude 36 yields a
stored row with a null latitude and longitude 36. -/
theorem createPost_zero_coercion_witness :
    postB.postLocationLat = none ∧ postB.postLocationLng = some 36 := by
  have h := createPost_zero_coercion dbC reqB (some { nickname := "alice", pinColor := some "#F17900" })
    7 postB dbB (by decide)
  exact ⟨h.1 rfl, h.2.2.2 36 (by norm_num) rfl⟩

/-- C3 counterexample: `reqB` supplies the well-formed color `#ABCDEF`
(it matches `#` + 6 hex digits), the stone has no prior post, and the
created post's color is the rotation color `#F17900` — the supplied
color is not stored even though it matches the pattern, refuting "the
supplied color is accepted (stored on the created post) if it matches". -/
theorem pinColor_validation_cex :
    isValidPinColorSpec "#ABCDEF" = true ∧
    reqB.pinColor = some "#ABCDEF" ∧
    isLatestObs emptyDB "stone-001" none ∧
    (createPost emptyDB reqB none 7).1 = PostResponse.ok postE ∧
    postE.pinColor = some "#F17900" ∧
    postE.pinColor ≠ some "#ABCDEF" :=
  ⟨by decide, rfl, ⟨none, rfl, rfl⟩, by decide, rfl, by decide⟩

/-- C3 (amended): the POST handler never reads the request's `pinColor`
field — two requests differing only in `pinColor` behave identically —
and the created post's color is always the rotation-policy color
(`assignColor`), never null and never the supplied value. -/
theorem pinColor_request_ignored (db : DB) (req : PostRequest) (c : Option String)
    (obs : Option LatestInfo) (now : ℕ) :
    createPost db { req with pinColor := c } obs now = createPost db req obs now ∧
    (∀ p db', createPost db req obs now = (PostResponse.ok p, db') →
      p.pinColor = some (assignColor obs (jsStrOrEmpty req.nickname))) := by
  refine ⟨rfl, ?_⟩
  intro p db' h
  obtain ⟨sid, -, -, hp, -⟩ := createPost_ok_inv db req obs now p db' h
  rw [hp]

/-- C3 witness: on a fresh database, `reqB` (which supplies `#ABCDEF`)
and the same request without a color create the same post, whose color
is the rotation color. -/
theorem pinColor_request_ignored_witness :
    createPost emptyDB { reqB with pinColor := none } none 7 = createPost emptyDB reqB none 7 ∧
    postE.pinColor = some (assignColor none (jsStrOrEmpty reqB.nickname)) := by
  have h := pinColor_request_ignored emptyDB reqB none none 7
  exact ⟨h.1, h.2 postE { stones := [stoneC], posts := [postE], nextId := 2 } (by decide)⟩

lemma assignColor_mem_palette (obs : Option LatestInfo) (nick : String)
    (h : ∀ li, obs = some li → li.pinColor = none ∨ ∃ c ∈ pinColors, li.pinColor = some c) :
    assignColor obs nick ∈ pinColors := by
  cases obs with
  | none => exact List.mem_cons_self _ _
  | some li =>
    obtain ⟨lnick, lcol⟩ := li
    rcases h ⟨lnick, lcol⟩ rfl with hnone | ⟨c, hc, hcol⟩
    · dsimp only at hnone
      subst hnone
      rw [assignColor_some]
      dsimp only
      split
      · rename_i hx
        exact absurd hx.2 (by decide)
      · decide
    · dsimp only at hcol
      subst hcol
      rw [assignColor_some]
      dsimp only
      split
      · exact hc
      · simp only [pinColors, List.mem_cons, List.not_mem_nil, or_false] at hc
        rcases hc with rfl | rfl | rfl | rfl <;> decide

lemma getPostsState_posts (db : DB) (host : String) (q : Option String) :
    (getPostsState db host q).posts = db.posts := by
  unfold getPostsState
  split
  · rfl
  · exact ensureStone_posts db _

lemma createPost_state_cases (db : DB) (req : PostRequest) (obs : Option LatestInfo) (now : ℕ) :
    (createPost db req obs now).2 = db ∨
    ∃ p db', createPost db req obs now = (PostResponse.ok p, db') := by
  unfold createPost
  split
  · exact Or.inl rfl
  · split
    · exact Or.inr ⟨_, _, rfl⟩
    · exact Or.inl rfl

lemma obs_palette (db : DB) (sid : String) (obs : Option LatestInfo)
    (hobs : isLatestObs db sid obs)
    (hall : ∀ q ∈ postsOfStone db sid,
      q.pinColor = none ∨ ∃ c ∈ pinColors, q.pinColor = some c) :
    ∀ li, obs = some li → li.pinColor = none ∨ ∃ c ∈ pinColors, li.pinColor = some c := by
  intro li hli
  obtain ⟨r, hr, hproj⟩ := hobs
  cases r with
  | none =>
    rw [hproj] at hli
    exact absurd hli (by simp)
  | some rp =>
    rw [hproj] at hli
    simp only [Option.map_some'] at hli
    obtain rfl := Option.some.inj hli
    rcases hall rp hr.1 with hnone | hsome
    · exact Or.inl hnone
    · exact Or.inr hsome

/-- C9: the palette invariant. First, one create-post step: if every
existing post of the stone has a null or palette pin color, a
successfully created post is assigned a non-null palette color. Second,
the closure: in every database reachable through the API from a fresh
store, every post carries a non-null palette color. -/
theorem createPost_palette_invariant (db : DB) (sid : String) (req : PostRequest)
    (obs : Option LatestInfo) (now : ℕ) (p : Post) (db' : DB) :
    ((∀ q ∈ postsOfStone db sid, q.pinColor = none ∨ ∃ c ∈ pinColors, q.pinColor = some c) →
      resolveStoneId req.host req.stoneId = some sid →
      isLatestObs db sid obs →
      createPost db req obs now = (PostResponse.ok p, db') →
      ∃ c ∈ pinColors, p.pinColor = some c) ∧
    (Reachable db → ∀ q ∈ db.posts, ∃ c ∈ pinColors, q.pinColor = some c) := by
  constructor
  · intro hall hres hobs hcp
    obtain ⟨sid', hres', -, hp, -⟩ := createPost_ok_inv db req obs now p db' hcp
    rw [hres] at hres'
    obtain rfl := Option.some.inj hres'
    subst hp
    exact ⟨assignColor obs (jsStrOrEmpty req.nickname),
      assignColor_mem_palette obs (jsStrOrEmpty req.nickname) (obs_palette db sid obs hobs hall),
      rfl⟩
  · intro hreach
    induction hreach with
    | init =>
      intro q hq
      exact absurd hq (List.not_mem_nil q)
    | step hr hs ih =>
      cases hs with
      | get host q0 =>
        intro r hrm
        rw [getPostsState_posts] at hrm
        exact ih r hrm
      | post req0 obs0 now0 hobs0 =>
        rcases createPost_state_cases _ req0 obs0 now0 with heq | ⟨p0, db0', hok⟩
        · intro r hrm
          rw [heq] at hrm
          exact ih r hrm
        · obtain ⟨sid0, hres0, -, hp0, hdb0⟩ := createPost_ok_inv _ req0 obs0 now0 p0 db0' hok
          intro r hrm
          rw [hok] at hrm
          dsimp only at hrm
          rw [hdb0] at hrm
          dsimp only at hrm
          rw [ensureStone_posts] at hrm
          rcases List.mem_append.mp hrm with hin | hnew
          · exact ih r hin
          · obtain rfl := List.mem_singleton.mp hnew
            subst hp0
            refine ⟨assignColor obs0 (jsStrOrEmpty req0.nickname), ?_, rfl⟩
            apply assignColor_mem_palette
            apply obs_palette _ sid0 obs0 (hobs0 sid0 hres0)
            intro q hq
            exact Or.inr (ih q (List.mem_filter.mp hq).1)
      | clear =>
        intro r hrm
        exact absurd hrm (List.not_mem_nil r)

/-- C9 witness: with one prior palette-colored post, a created post gets
a palette color, and the fresh reachable database trivially satisfies
the invariant. -/
theorem createPost_palette_invariant_witness :
    (∃ c ∈ pinColors, postB.pinColor = some c) ∧
    (∀ q ∈ dbC.posts, ∃ c ∈ pinColors, q.pinColor = some c) := by
  have h := createPost_palette_invariant dbC "stone-001" reqB
    (some { nickname := "alice", pinColor := some "#F17900" }) 7 postB dbB
  have hreach : Reachable dbC :=
    Reachable.step Reachable.init
      (Step.post emptyDB reqAlice none 1 (fun sid _ => ⟨none, rfl, rfl⟩))
  exact ⟨h.1 (by decide) (by decide)
      ⟨some postC, by simp only [isLatestRow]; decide, rfl⟩ (by decide),
    h.2 hreach⟩

lemma nonIncreasing_pairwise (l : List Post) (h : nonIncreasingByCreatedAt l = true) :
    l.Pairwise (fun a b => b.createdAt ≤ a.createdAt) := by
  induction l with
  | nil => exact List.Pairwise.nil
  | cons a t ih =>
    cases t with
    | nil => exact List.pairwise_singleton _ a
    | cons b r =>
      rw [show nonIncreasingByCreatedAt (a :: b :: r) =
          (decide (b.createdAt ≤ a.createdAt) && nonIncreasingByCreatedAt (b :: r)) from rfl,
        Bool.and_eq_true] at h
      obtain ⟨hab, ht⟩ := h
      have hab' : b.createdAt ≤ a.createdAt := of_decide_eq_true hab
      have pw := ih ht
      refine List.Pairwise.cons ?_ pw
      intro x hx
      rcases List.mem_cons.mp hx with rfl | hxr
      · exact hab'
      · exact le_trans (List.rel_of_pairwise_cons pw hxr) hab'

lemma mem_eq_of_distinctTimes : ∀ base : List Post, distinctTimes base →
    ∀ a b : Post, a ∈ base → b ∈ base → a.createdAt = b.createdAt → a = b := by
  intro base
  induction base with
  | nil =>
    intro _ a b ha
    exact absurd ha (List.not_mem_nil a)
  | cons x t ih =>
    intro hd a b ha hb hk
    simp only [distinctTimes, List.pairwise_cons] at hd
    obtain ⟨hx, ht⟩ := hd
    rcases List.mem_cons.mp ha with rfl | hat
    · rcases List.mem_cons.mp hb with rfl | hbt
      · rfl
      · exact absurd hk (hx b hbt)
    · rcases List.mem_cons.mp hb with rfl | hbt
      · exact absurd hk.symm (hx a hat)
      · exact ih ht a b hat hbt hk

lemma listResult_unique (db : DB) (sid : String) (out out' : List Post)
    (h : isListResult db sid out) (h' : isListResult db sid out')
    (hd : distinctTimes (postsOfStone db sid)) : out = out' := by
  obtain ⟨hp, hs⟩ := h
  obtain ⟨hp', hs'⟩ := h'
  refine List.Perm.eq_of_sorted ?_ (nonIncreasing_pairwise out hs)
    (nonIncreasing_pairwise out' hs') (hp.trans hp'.symm)
  intro a b ha hb hab hba
  exact mem_eq_of_distinctTimes (postsOfStone db sid) hd a b
    (hp.subset ha) (hp'.subset hb) (le_antisymm hba hab)

lemma sorted_head_max (q : Post) (rest base : List Post)
    (hperm : (q :: rest).Perm base)
    (hpw : (q :: rest).Pairwise (fun a b => b.createdAt ≤ a.createdAt)) :
    ∀ x ∈ base, x.createdAt ≤ q.createdAt := by
  intro x hx
  rcases List.mem_cons.mp (hperm.mem_iff.mpr hx) with rfl | hxr
  · exact le_refl _
  · exact List.rel_of_pairwise_cons hpw hxr

/-- C4 counterexample: in state `dbT`, the two posts of `stone-001`
share one creation timestamp and `ORDER BY created_at DESC` admits both
orders. The output `[postT1, postT2]` is admitted although its tie is in
ASCENDING id order (1 before 2), refuting the claimed `(created_at desc,
id desc)` order; and since two different outputs are admitted for the
same state, repeated reads are not guaranteed identical. -/
theorem listPosts_order_cex :
    isListResult dbT "stone-001" [postT1, postT2] ∧
    isListResult dbT "stone-001" [postT2, postT1] ∧
    postT1.createdAt = postT2.createdAt ∧
    postT1.id < postT2.id ∧
    ([postT1, postT2] : List Post) ≠ [postT2, postT1] :=
  ⟨⟨by decide, by decide⟩, ⟨by decide, by decide⟩, rfl, by decide, by decide⟩

/-- C4 (amended): the listing is a complete permutation of the stone's
posts in non-increasing creation-timestamp order; nothing constrains the
relative order of posts with equal timestamps. When the stone's
timestamps are pairwise distinct the sequence is uniquely determined, so
repeated reads with no intervening writes return the identical
sequence. -/
theorem listPosts_order_amended (db : DB) (sid : String) (out out' : List Post)
    (h : isListResult db sid out) :
    out.Perm (postsOfStone db sid) ∧
    nonIncreasingByCreatedAt out = true ∧
    (distinctTimes (postsOfStone db sid) → isListResult db sid out' → out = out') :=
  ⟨h.1, h.2, fun hd h' => listResult_unique db sid out out' h h' hd⟩

/-- C4 witness: on a one-post stone (distinct timestamps trivially), the
only admitted listing is `[postC]` and a repeated read returns it
again. -/
theorem listPosts_order_amended_witness :
    [postC].Perm (postsOfStone dbC "stone-001") ∧
    nonIncreasingByCreatedAt [postC] = true ∧
    ([postC] : List Post) = [postC] := by
  have h := listPosts_order_amended dbC "stone-001" [postC] [postC] ⟨by decide, by decide⟩
  exact ⟨h.1, h.2.1,
    h.2.2 (List.pairwise_singleton _ _) ⟨by decide, by decide⟩⟩

/-- C5 counterexample: in state `dbT` the single-row latest query may
return `postT1` while the full listing may start with `postT2` (both are
admitted by `ORDER BY created_at DESC` because the timestamps tie), so
the optimized fetch and the head of the listing do not agree on every
state. -/
theorem latest_vs_head_cex :
    isLatestRow dbT "stone-001" (some postT1) ∧
    isListResult dbT "stone-001" [postT2, postT1] ∧
    postT1 ≠ postT2 :=
  ⟨by simp only [isLatestRow]; decide, ⟨by decide, by decide⟩, by decide⟩

/-- C5 (amended): the single-row lookup returns `none` exactly when the
listing is empty; otherwise it returns some post whose creation
timestamp equals the head of the listing's timestamp (both are maximal),
and when the stone's timestamps are pairwise distinct it is exactly the
head row of the listing. -/
theorem latestPost_vs_listHead (db : DB) (sid : String) (r : Option Post) (out : List Post)
    (hr : isLatestRow db sid r) (ho : isListResult db sid out) :
    (r = none ↔ out = []) ∧
    (∀ p, r = some p → ∃ q rest, out = q :: rest ∧ q.createdAt = p.createdAt ∧
      (distinctTimes (postsOfStone db sid) → q = p)) := by
  obtain ⟨hperm, hsort⟩ := ho
  constructor
  · constructor
    · intro hn
      subst hn
      simp only [isLatestRow] at hr
      rw [hr] at hperm
      exact hperm.eq_nil
    · intro he
      subst he
      have hbase : postsOfStone db sid = [] := hperm.symm.eq_nil
      cases r with
      | none => rfl
      | some p =>
        simp only [isLatestRow] at hr
        rw [hbase] at hr
        exact absurd hr.1 (List.not_mem_nil p)
  · intro p hp
    subst hp
    simp only [isLatestRow] at hr
    obtain ⟨hmem, hmax⟩ := hr
    cases out with
    | nil =>
      have hbase : postsOfStone db sid = [] := hperm.symm.eq_nil
      rw [hbase] at hmem
      exact absurd hmem (List.not_mem_nil p)
    | cons q rest =>
      have hq_mem : q ∈ postsOfStone db sid := hperm.subset (List.mem_cons_self q rest)
      have heq : q.createdAt = p.createdAt :=
        le_antisymm (hmax q hq_mem)
          (sorted_head_max q rest (postsOfStone db sid) hperm
            (nonIncreasing_pairwise _ hsort) p hmem)
      exact ⟨q, rest, rfl, heq,
        fun hd => mem_eq_of_distinctTimes _ hd q p hq_mem hmem heq⟩

/-- C5 witness: on a one-post stone the lookup returns `postC`, the
listing is `[postC]`, and they agree. -/
theorem latestPost_vs_listHead_witness :
    ((some postC = none) ↔ ([postC] : List Post) = []) ∧
    (∃ q rest, ([postC] : List Post) = q :: rest ∧ q.createdAt = postC.createdAt ∧
      (distinctTimes (postsOfStone dbC "stone-001") → q = postC)) := by
  have h := latestPost_vs_listHead dbC "stone-001" (some postC) [postC]
    (by simp only [isLatestRow]; decide) ⟨by decide, by decide⟩
  exact ⟨h.1, h.2 postC rfl⟩

end Isi2
